import Mathlib

/-!
Verification of the db_sync_manager replication engine (Go) against its
specification.  The Go source is shallowly embedded: records (Go
`map[string]interface{}`) become association lists over a scalar `Value`
type, the database visible to one job becomes an association list from
table names to row lists, and the cycle of `syncTables` / `processData`
(service part of the repository) becomes a fuel-indexed functional loop
with externally injected failure schedules standing for I/O errors.
-/

namespace DbSync

/-- Dynamically-typed scalar value held by one column of a record
(text, number, boolean, timestamp or null); timestamps are represented
by their textual form, which is enough for the claims at hand. -/
inductive Value where
  | null : Value
  | str (s : String) : Value
  | int (n : Int) : Value
  | bool (b : Bool) : Value
  deriving DecidableEq, Repr

/-- Association list keyed by strings: the value model of a Go map.
Well-formed values built through `setA` keep keys unique. -/
abbrev AssocL (α : Type) : Type := List (String × α)

/-- Go map read: first entry with the given key, if any. -/
def lookupA {α : Type} : AssocL α → String → Option α
  | [], _ => none
  | (k, v) :: rest, key => if k = key then some v else lookupA rest key

/-- Go `delete(m, key)`: remove every entry with the given key. -/
def eraseA {α : Type} : AssocL α → String → AssocL α
  | [], _ => []
  | p :: rest, key => if p.1 = key then eraseA rest key else p :: eraseA rest key

/-- Go map write `m[key] = v`: replace any previous binding. -/
def setA {α : Type} (m : AssocL α) (key : String) (v : α) : AssocL α :=
  eraseA m key ++ [(key, v)]

/-- Key set of a map, in entry order. -/
def keysA {α : Type} (m : AssocL α) : List String :=
  m.map (·.1)

/-- `domain/models.go` `Record`: one row as a column-name-to-value map. -/
abbrev Record : Type := AssocL Value

/-- `domain/models.go` `ColumnInfo`. -/
structure ColumnInfo where
  Name : String
  DataType : String
  IsNullable : Bool
  AutoIncrement : Bool
  deriving DecidableEq, Repr

/-- `domain/models.go` `TableSchema`. -/
structure TableSchema where
  Columns : List ColumnInfo
  PrimaryKey : String
  Indexes : List String
  deriving DecidableEq, Repr

/-- Go `strings.ReplaceAll(s, "_", "")`: with the one-character pattern
this is exactly dropping every underscore. -/
def removeUnderscores (s : String) : String :=
  String.mk (s.data.filter (fun c => c ≠ '_'))

/-- Go `strings.ToLower` on the ASCII column names this code base uses. -/
def lowerString (s : String) : String :=
  String.mk (s.data.map Char.toLower)

/-- `domain/models.go` `ColumnInfo.GetColumnName`: with `isMapping` the
name is normalized (underscores removed, then lower-cased), otherwise it
is returned as is. -/
def ColumnInfo.getColumnName (c : ColumnInfo) (isMapping : Bool) : String :=
  if isMapping then lowerString (removeUnderscores c.Name) else c.Name

section AssocLemmas

variable {α : Type}

theorem lookupA_append (m m' : AssocL α) (k : String) :
    lookupA (m ++ m') k =
      match lookupA m k with
      | some v => some v
      | none => lookupA m' k := by
  induction m with
  | nil => rfl
  | cons p rest ih =>
    by_cases hp : p.1 = k <;> simp [lookupA, hp, ih]

theorem lookupA_eraseA_self (m : AssocL α) (k : String) :
    lookupA (eraseA m k) k = none := by
  induction m with
  | nil => rfl
  | cons p rest ih =>
    by_cases h : p.1 = k <;> simp [eraseA, lookupA, h, ih]

theorem lookupA_eraseA_ne (m : AssocL α) (k k' : String) (h : k' ≠ k) :
    lookupA (eraseA m k) k' = lookupA m k' := by
  induction m with
  | nil => rfl
  | cons p rest ih =>
    by_cases hp : p.1 = k
    · have hpk : p.1 ≠ k' := fun hk => h (hk ▸ hp ▸ rfl)
      simp [eraseA, lookupA, hp, hpk, ih, Ne.symm h]
    · by_cases hq : p.1 = k' <;>
        simp [eraseA, lookupA, hp, hq, ih, h, Ne.symm h]

theorem lookupA_setA_self (m : AssocL α) (k : String) (v : α) :
    lookupA (setA m k v) k = some v := by
  rw [setA, lookupA_append, lookupA_eraseA_self]
  simp [lookupA]

theorem lookupA_setA_ne (m : AssocL α) (k k' : String) (v : α)
    (h : k' ≠ k) : lookupA (setA m k v) k' = lookupA m k' := by
  rw [setA, lookupA_append, lookupA_eraseA_ne m k k' h]
  rcases heq : lookupA m k' with _ | w
  · simp [lookupA, Ne.symm h]
  · rfl

theorem eraseA_of_not_mem {m : AssocL α} (h : k ∉ keysA m) :
    eraseA m k = m := by
  induction m with
  | nil => rfl
  | cons p rest ih =>
    simp only [keysA, List.map_cons, List.mem_cons] at h
    push_neg at h
    have hp : p.1 ≠ k := fun hk => h.1 hk.symm
    simp [eraseA, hp, ih (by simpa [keysA] using h.2)]

theorem setA_of_not_mem {m : AssocL α} (h : k ∉ keysA m) (v : α) :
    setA m k v = m ++ [(k, v)] := by
  simp [setA, eraseA_of_not_mem h]

theorem lookupA_of_not_mem {m : AssocL α} (h : k ∉ keysA m) :
    lookupA m k = none := by
  induction m with
  | nil => rfl
  | cons p rest ih =>
    simp only [keysA, List.map_cons, List.mem_cons] at h
    push_neg at h
    have hp : p.1 ≠ k := fun hk => h.1 hk.symm
    simp [lookupA, hp, ih (by simpa [keysA] using h.2)]

end AssocLemmas

/-! ## Data Processor (service source file, `DataProcessor`) -/

/-- `DataProcessor` struct.  The mutex only serializes access and has no
functional content; the buffer-size argument of `NewDataProcessor` only
pre-allocates capacity, so neither is part of the state. -/
structure DataProcessor where
  buffer : List Record
  sourceData : List Record
  transform : Record → Record
  sourceSchema : Option TableSchema
  targetSchema : Option TableSchema
  columnMapping : AssocL String
  dataLoaded : Bool

/-- `createColumnMapping`: every source column is paired with the first
target column having the same normalized name, keyed by the source
column name; unmatched source columns get no entry. -/
def createColumnMapping (src tgt : TableSchema) : AssocL String :=
  src.Columns.foldl
    (fun m srcCol =>
      match tgt.Columns.find?
          (fun tgtCol => tgtCol.getColumnName true == srcCol.getColumnName true) with
      | some tgtCol => setA m srcCol.Name tgtCol.Name
      | none => m)
    []

/-- `NewDataProcessor` with the effect of the used options
(`WithTransform`, `WithSchemas`) applied: the default transform is the
identity and the column mapping is computed exactly when both schemas
are present. -/
def NewDataProcessor (transform : Record → Record)
    (sourceSchema targetSchema : Option TableSchema) : DataProcessor :=
  { buffer := [], sourceData := [], transform := transform,
    sourceSchema := sourceSchema, targetSchema := targetSchema,
    columnMapping :=
      match sourceSchema, targetSchema with
      | some s, some t => createColumnMapping s t
      | _, _ => [],
    dataLoaded := false }

/-- `SetSourceData`: stores the preloaded rows; the loaded flag is set
iff the data is nonempty. -/
def DataProcessor.setSourceData (p : DataProcessor) (data : List Record) :
    DataProcessor :=
  { p with sourceData := data, dataLoaded := decide (0 < data.length) }

/-- The value `processRecord` reads for one schema column: first under
`GetColumnName(false)`, then under `Name` (the two names coincide, as in
the source). -/
def sourceLookup (record : Record) (col : ColumnInfo) : Option Value :=
  match lookupA record (col.getColumnName false) with
  | some v => some v
  | none => lookupA record col.Name

/-- The output column name `processRecord` chooses: the mapped target
name when a target schema is present and the mapping has an entry for
the source name, otherwise the source column name itself. -/
def DataProcessor.targetNameFor (p : DataProcessor) (col : ColumnInfo) : String :=
  if p.targetSchema.isSome then
    match lookupA p.columnMapping col.Name with
    | some mapped => mapped
    | none => col.Name
  else col.Name

/-- The column loop of `processRecord` building the fresh `processed`
record from `sourceSchema.Columns`. -/
def DataProcessor.mapRecord (p : DataProcessor) (schema : TableSchema)
    (record : Record) : Record :=
  schema.Columns.foldl
    (fun processed col =>
      match sourceLookup record col with
      | none => processed
      | some v => setA processed (p.targetNameFor col) v)
    []

/-- `processRecord`: without a source schema the transform is applied to
the record itself; with one, to the freshly built mapped record.  The
transform is total here (Go's default is the identity and every
registered transform returns a record), so the `processed != nil` guard
in `Process` never drops a record. -/
def DataProcessor.processRecord (p : DataProcessor) (record : Record) : Record :=
  match p.sourceSchema with
  | none => p.transform record
  | some schema => p.transform (p.mapRecord schema record)

/-- `Process`: each record of the batch is processed and appended to the
internal buffer. -/
def DataProcessor.Process (p : DataProcessor) (batch : List Record) :
    DataProcessor :=
  { p with buffer := p.buffer ++ batch.map p.processRecord }

/-- `GetBatch(size)`: drains the first `min size (length buffer)`
buffered records, returning the drained batch and the updated state. -/
def DataProcessor.GetBatch (p : DataProcessor) (size : Nat) :
    List Record × DataProcessor :=
  let size := if size > p.buffer.length then p.buffer.length else size
  (p.buffer.take size, { p with buffer := p.buffer.drop size })

/-- `GetPreloadedBatch(offset, batchSize)` in the value model: the
processed records of the slice `sourceData[offset:end]`. -/
def DataProcessor.getPreloadedBatch (p : DataProcessor)
    (offset batchSize : Nat) : List Record :=
  if !p.dataLoaded || p.sourceData.length ≤ offset then []
  else
    let e :=
      if p.sourceData.length < offset + batchSize then p.sourceData.length
      else offset + batchSize
    ((p.sourceData.drop offset).take (e - offset)).map p.processRecord

/-- `GetTargetColumns`: the non-autoincrement target columns in schema
order; Go's `nil` result without a target schema becomes `[]`. -/
def DataProcessor.GetTargetColumns (p : DataProcessor) : List String :=
  match p.targetSchema with
  | some t => (t.Columns.filter (fun c => !c.AutoIncrement)).map (·.Name)
  | none => []

/-- The Go idiom `if v, ok := r[old]; ok { r[new] = v; delete(r, old) }`
used by every registered transform function. -/
def renameKey (r : Record) (old new : String) : Record :=
  match lookupA r old with
  | some v => eraseA (setA r new v) old
  | none => r

/-- `TransformForModelPhones` (main source file): renames `VENDOR_NAME`,
`MODEL_NAME` and `TAC` to their camel-case target names on the given
record. -/
def TransformForModelPhones (r : Record) : Record :=
  renameKey
    (renameKey (renameKey r "VENDOR_NAME" "vendorName")
      "MODEL_NAME" "modelName")
    "TAC" "tac"


/-! ## Characterization of the record mapping (claim C1) -/

/-- The schema columns that find a value in a given record. -/
def matchedCols (schema : TableSchema) (record : Record) : List ColumnInfo :=
  schema.Columns.filter (fun c => (sourceLookup record c).isSome)

/-- The (output name, value) pairs written by `processRecord`'s column
loop, in schema order. -/
def mappedPairs (p : DataProcessor) (schema : TableSchema)
    (record : Record) : Record :=
  schema.Columns.filterMap
    (fun c => (sourceLookup record c).map (fun v => (p.targetNameFor c, v)))

/-- What the spec's sentence predicts for the output key set: the image
under the column mapping of the record keys that lie in the mapping's
domain. -/
def specImageKeys (mapping : AssocL String) (record : Record) : List String :=
  (keysA record).filterMap (fun k => lookupA mapping k)

theorem keysA_append {α : Type} (m m' : AssocL α) :
    keysA (m ++ m') = keysA m ++ keysA m' := by
  simp [keysA]

theorem lookupA_of_mem_nodup {α : Type} {m : AssocL α} {k : String} {v : α}
    (hmem : (k, v) ∈ m) (hnd : (keysA m).Nodup) : lookupA m k = some v := by
  induction m with
  | nil => simp at hmem
  | cons p rest ih =>
    simp only [keysA, List.map_cons, List.nodup_cons] at hnd
    rcases List.mem_cons.mp hmem with heq | hrest
    · simp [lookupA, ← heq]
    · have hp : p.1 ≠ k := by
        intro hk
        exact hnd.1 (hk ▸ (List.mem_map.mpr ⟨(k, v), hrest, rfl⟩))
      simp [lookupA, hp, ih hrest (by simpa [keysA] using hnd.2)]

theorem foldl_setA_of_nodup {α : Type} :
    ∀ (ps : AssocL α) (acc : AssocL α),
      (keysA acc ++ keysA ps).Nodup →
      ps.foldl (fun a kv => setA a kv.1 kv.2) acc = acc ++ ps := by
  intro ps
  induction ps with
  | nil => intro acc _; simp
  | cons kv rest ih =>
    intro acc hnd
    have hk : kv.1 ∉ keysA acc := by
      intro hmem
      have := (List.nodup_append.mp hnd).2.2
      exact this hmem (by simp [keysA])
    have hstep : setA acc kv.1 kv.2 = acc ++ [(kv.1, kv.2)] :=
      setA_of_not_mem hk kv.2
    have hnd' : (keysA (acc ++ [(kv.1, kv.2)]) ++ keysA rest).Nodup := by
      rw [keysA_append]
      simpa [keysA, List.append_assoc] using hnd
    calc ((kv :: rest).foldl (fun a p => setA a p.1 p.2) acc)
        = rest.foldl (fun a p => setA a p.1 p.2) (setA acc kv.1 kv.2) := rfl
      _ = rest.foldl (fun a p => setA a p.1 p.2) (acc ++ [(kv.1, kv.2)]) := by
          rw [hstep]
      _ = (acc ++ [(kv.1, kv.2)]) ++ rest := ih _ hnd'
      _ = acc ++ kv :: rest := by simp

theorem mapRecord_foldl_eq (p : DataProcessor) (schema : TableSchema)
    (record : Record) :
    p.mapRecord schema record =
      (mappedPairs p schema record).foldl
        (fun a kv => setA a kv.1 kv.2) [] := by
  rw [DataProcessor.mapRecord, mappedPairs]
  generalize ([] : Record) = init
  induction schema.Columns generalizing init with
  | nil => rfl
  | cons c rest ih =>
    rcases h : sourceLookup record c with _ | v <;>
      simp [List.filterMap_cons, h, ih]

theorem mapRecord_eq_mappedPairs (p : DataProcessor) (schema : TableSchema)
    (record : Record)
    (hnd : (keysA (mappedPairs p schema record)).Nodup) :
    p.mapRecord schema record = mappedPairs p schema record := by
  rw [mapRecord_foldl_eq]
  simpa using foldl_setA_of_nodup (mappedPairs p schema record) []
    (by simpa [keysA] using hnd)

theorem keysA_mappedPairs (p : DataProcessor) (schema : TableSchema)
    (record : Record) :
    keysA (mappedPairs p schema record)
      = (matchedCols schema record).map p.targetNameFor := by
  rw [mappedPairs, matchedCols]
  induction schema.Columns with
  | nil => rfl
  | cons c rest ih =>
    simp only [keysA] at ih
    rcases h : sourceLookup record c with _ | v <;>
      simp [List.filterMap_cons, List.filter_cons, h, keysA, ih]

theorem mem_mappedPairs {p : DataProcessor} {schema : TableSchema}
    {record : Record} {c : ColumnInfo} {v : Value}
    (hc : c ∈ schema.Columns) (hv : sourceLookup record c = some v) :
    (p.targetNameFor c, v) ∈ mappedPairs p schema record := by
  rw [mappedPairs]
  exact List.mem_filterMap.mpr ⟨c, hc, by simp [hv]⟩

/-- C1: false as stated.  The claim predicts that the output key set is
the image under the computed column mapping of the record keys lying in
the mapping's domain, so that unmapped source columns are dropped.  In
the code, a schema column with no mapping entry keeps its source name
(`targetName := col.Name` is the default), so with source column `A`,
target column `B` (no normalized match, empty mapping) the output still
contains key `A` while the claimed image is empty. -/
theorem C1_counterexample :
    keysA
      ((NewDataProcessor (fun r => r)
          (some ⟨[⟨"A", "INT", true, false⟩], "", []⟩)
          (some ⟨[⟨"B", "INT", true, false⟩], "", []⟩)).processRecord
        [("A", Value.int 1)]) = ["A"] ∧
    specImageKeys
      (NewDataProcessor (fun r => r)
          (some ⟨[⟨"A", "INT", true, false⟩], "", []⟩)
          (some ⟨[⟨"B", "INT", true, false⟩], "", []⟩)).columnMapping
      [("A", Value.int 1)] = [] := by
  decide

/-- C1 (amended): with a source schema set, `Process(B)` appends one
output record per input record; each output is the transform of the
mapped record, whose key set is the image of the intersection of the
record's keys with the *source schema's* column names under the mapping
extended identically on unmapped columns (mapped columns renamed,
unmapped schema columns kept under their source name, keys outside the
schema dropped), and whose values are the source values unchanged. -/
theorem C1_theorem (p : DataProcessor) (schema : TableSchema)
    (B : List Record) (hs : p.sourceSchema = some schema) :
    (p.Process B).buffer = p.buffer ++ B.map p.processRecord ∧
    ∀ r ∈ B,
      p.processRecord r = p.transform (p.mapRecord schema r) ∧
      ((keysA (mappedPairs p schema r)).Nodup →
        keysA (p.mapRecord schema r)
          = (matchedCols schema r).map p.targetNameFor ∧
        ∀ c ∈ schema.Columns, ∀ v, sourceLookup r c = some v →
          lookupA (p.mapRecord schema r) (p.targetNameFor c) = some v) := by
  refine ⟨rfl, ?_⟩
  intro r _
  constructor
  · rw [DataProcessor.processRecord, hs]
  · intro hnd
    rw [mapRecord_eq_mappedPairs p schema r hnd]
    refine ⟨keysA_mappedPairs p schema r, ?_⟩
    intro c hc v hv
    exact lookupA_of_mem_nodup (mem_mappedPairs hc hv) hnd

/-- Witness for C1: the `VENDOR_NAME`-style processor maps a concrete
record, renaming the mapped column and keeping values. -/
theorem C1_witness :
    (NewDataProcessor (fun r => r)
        (some ⟨[⟨"VENDOR_NAME", "VARCHAR2", true, false⟩], "", []⟩)
        (some ⟨[⟨"vendorName", "VARCHAR", true, false⟩], "", []⟩)).sourceSchema
      = some ⟨[⟨"VENDOR_NAME", "VARCHAR2", true, false⟩], "", []⟩ ∧
    ((NewDataProcessor (fun r => r)
        (some ⟨[⟨"VENDOR_NAME", "VARCHAR2", true, false⟩], "", []⟩)
        (some ⟨[⟨"vendorName", "VARCHAR", true, false⟩], "", []⟩)).Process
      [[("VENDOR_NAME", Value.str "Nokia")]]).buffer
      = [[("vendorName", Value.str "Nokia")]] := by
  constructor
  · rfl
  · have h := C1_theorem
      (NewDataProcessor (fun r => r)
        (some ⟨[⟨"VENDOR_NAME", "VARCHAR2", true, false⟩], "", []⟩)
        (some ⟨[⟨"vendorName", "VARCHAR", true, false⟩], "", []⟩))
      ⟨[⟨"VENDOR_NAME", "VARCHAR2", true, false⟩], "", []⟩
      [[("VENDOR_NAME", Value.str "Nokia")]] rfl
    rw [h.1]
    decide


/-! ## Buffer draining (claim C7) and name matching (claim C8) -/

/-- C7: `GetBatch(n)` returns the first `min n (buffer length)` buffered
records in arrival order and removes exactly those from the buffer, so
drained batch and remaining buffer concatenate back to the original
buffer and the remaining records keep their original order. -/
theorem C7_theorem (p : DataProcessor) (n : Nat) :
    (p.GetBatch n).1 = p.buffer.take n ∧
    ((p.GetBatch n).2).buffer = p.buffer.drop n ∧
    (p.GetBatch n).1 ++ ((p.GetBatch n).2).buffer = p.buffer ∧
    (p.GetBatch n).1.length = min n p.buffer.length := by
  rw [DataProcessor.GetBatch]
  by_cases h : n > p.buffer.length
  · have hle : p.buffer.length ≤ n := Nat.le_of_lt h
    refine ⟨?_, ?_, ?_, ?_⟩
    · simp [h, List.take_length, List.take_of_length_le hle]
    · simp [h, List.drop_length, List.drop_eq_nil_of_le hle]
    · simp [h, List.take_length, List.drop_length]
    · simp only [gt_iff_lt] at h
      simp [List.length_take, h, Nat.min_eq_right hle,
        Nat.min_eq_left (Nat.le_refl _)]
  · simp only [gt_iff_lt, not_lt] at h
    refine ⟨by simp [Nat.not_lt.mpr h], by simp [Nat.not_lt.mpr h],
      by simp [Nat.not_lt.mpr h, List.take_append_drop], ?_⟩
    simp [Nat.not_lt.mpr h, List.length_take]

/-- The model-phones source schema shape from the spec's scenario. -/
def srcSchemaPhones : TableSchema :=
  ⟨[⟨"VENDOR_NAME", "VARCHAR2", true, false⟩,
    ⟨"MODEL_NAME", "VARCHAR2", true, false⟩,
    ⟨"TAC", "NUMBER", true, false⟩], "", []⟩

/-- The model-phones target schema shape from the spec's scenario. -/
def tgtSchemaPhones : TableSchema :=
  ⟨[⟨"vendorName", "VARCHAR", true, false⟩,
    ⟨"modelName", "VARCHAR", true, false⟩,
    ⟨"tac", "BIGINT", true, false⟩], "", []⟩

/-- C8: normalization lower-cases and strips underscores, so
`VENDOR_NAME` and `vendorName` normalize to the same key `vendorname`,
and `createColumnMapping` pairs them (and the other scenario
columns) by first exact match of normalized names. -/
theorem C8_theorem :
    ColumnInfo.getColumnName ⟨"VENDOR_NAME", "VARCHAR2", true, false⟩ true
      = ColumnInfo.getColumnName ⟨"vendorName", "VARCHAR", true, false⟩ true ∧
    ColumnInfo.getColumnName ⟨"VENDOR_NAME", "VARCHAR2", true, false⟩ true
      = "vendorname" ∧
    createColumnMapping srcSchemaPhones tgtSchemaPhones
      = [("VENDOR_NAME", "vendorName"), ("MODEL_NAME", "modelName"),
         ("TAC", "tac")] := by
  decide


/-! ## Target database model and connectors
(`internal/connectors/connector.go` for Oracle, the MariaDB connector
source file, and the `SyncService` source file) -/

/-- Rows of one table. -/
abbrev Table : Type := List Record

/-- The tables of the database behind one connector, by name: the same
string-keyed-map shape as records. -/
abbrev DB : Type := AssocL Table

/-- Reading a table by name. -/
def getTable (db : DB) (t : String) : Option Table := lookupA db t

/-- `DropTable` of both connectors: remove the table if present; never
fails on an absent table (`DROP TABLE IF EXISTS`, resp. the PL/SQL
block swallowing ORA-00942). -/
def dropTable (db : DB) (t : String) : DB := eraseA db t

/-- Creating (or replacing) a table with the given rows. -/
def setTable (db : DB) (t : String) (rows : Table) : DB := setA db t rows

/-- One `ALTER TABLE old RENAME TO new`, or one member of a MariaDB
`RENAME TABLE` list: fails when the source table is absent or the
destination name is taken. -/
def renameTable (db : DB) (oldName newName : String) : Option DB :=
  match getTable db oldName with
  | none => none
  | some rows =>
    match getTable db newName with
    | some _ => none
    | none => some (setTable (dropTable db oldName) newName rows)

/-- A sequence of renames executed left to right inside one transaction
or one statement: all-or-nothing. -/
def renameAll : DB → List (String × String) → Option DB
  | db, [] => some db
  | db, (o, n) :: rest =>
    match renameTable db o n with
    | none => none
    | some db1 => renameAll db1 rest

/-- SQL `INSERT` value selection: an inserted row carries exactly the
insert column list; a record lacking one of the columns contributes
NULL (the MariaDB path appends nil explicitly, the Oracle bind does the
same through the missing-key zero value). -/
def projRecord (cols : List String) (r : Record) : Record :=
  cols.map (fun c => (c, (lookupA r c).getD Value.null))

/-- The column list `InsertBatch` actually uses: the caller's list, or
the first record's keys when the caller passes an empty one (Go
iterates that map in unspecified order; entry order is used here). -/
def effColumns (cols : List String) (records : List Record) : List String :=
  if cols.isEmpty then keysA (records.headD []) else cols

/-- Effect of a successful `InsertBatch` on the table store: the
projected records are appended to the named table (created by
`CreateTempTable` before any insert of a cycle). -/
def insertRows (db : DB) (t : String) (records : List Record)
    (cols : List String) : DB :=
  setTable db t ((getTable db t).getD [] ++
    records.map (projRecord (effColumns cols records)))

/-- `MariaDBConnector.InsertBatch`: an empty record list returns success
before the transaction is begun; otherwise the batch insert is atomic —
with the injected transaction/execution fault it fails and leaves the
database unchanged (rollback), without it all rows are appended. -/
def mariaInsertBatch (txFault : Bool) (db : DB) (tableName : String)
    (records : List Record) (columns : List String) : Except Unit DB :=
  if records.length = 0 then .ok db
  else if txFault then .error ()
  else .ok (insertRows db tableName records columns)

/-- `OracleConnector.InsertBatch`: same structure — the empty-input
check precedes `tx.Begin`, the per-row loop is atomic via
rollback-on-error. -/
def oracleInsertBatch (txFault : Bool) (db : DB) (tableName : String)
    (records : List Record) (columns : List String) : Except Unit DB :=
  if records.length = 0 then .ok db
  else if txFault then .error ()
  else .ok (insertRows db tableName records columns)

/-- `MariaDBConnector.SwapTables`: the fixed-name backup is dropped
first (outside the transaction, its error ignored, then once more
inside), then `RENAME TABLE original TO backup, temp TO original` runs
atomically; on rename failure the drops persist but the renames do
not. -/
def mariaSwapTables (db : DB) (originalTable tempTable : String) :
    DB × Bool :=
  let backupTable := originalTable ++ "_backup"
  let db0 := dropTable db backupTable
  let db1 := dropTable db0 backupTable
  match renameAll db1 [(originalTable, backupTable),
                       (tempTable, originalTable)] with
  | some db2 => (db2, true)
  | none => (db1, false)

/-- `OracleConnector.SwapTables` with the wall-clock timestamp of the
backup name made an explicit argument: three renames
(original→backup, temp→original, backup→temp) in one transaction with a
deferred rollback, so failure leaves the database unchanged. -/
def oracleSwapTables (db : DB) (originalTable tempTable ts : String) :
    DB × Bool :=
  let backupTable := originalTable ++ "_backup_" ++ ts
  match renameAll db [(originalTable, backupTable),
                      (tempTable, originalTable),
                      (backupTable, tempTable)] with
  | some db2 => (db2, true)
  | none => (db, false)

/-! ## One replication cycle (`SyncService.syncTables` / `processData`) -/

/-- Failure classes of one cycle, matching the operations whose errors
`processData` and `syncTables` propagate. -/
inductive SyncError where
  | countError
  | extractError
  | insertError
  | swapError
  deriving DecidableEq, Repr

/-- Observable steps of one cycle, used to state which operations a run
did or did not attempt. -/
inductive Event where
  | create
  | insert (n : Nat)
  | dropTemp
  | swapAttempt
  | swapOk
  | procRun
  deriving DecidableEq, Repr

/-- Ambient data of one job's cycle: the stable source rows (the
connector contract guarantees a stable order for repeated reads), the
configuration, the processor built at job creation, failure schedules
standing for connector I/O errors (keyed by the offset at which the
call is made), and the target connector's swap implementation. -/
structure CycleEnv where
  sourceRows : List Record
  batchSize : Nat
  proc : DataProcessor
  origTable : String
  suffix : String
  getCountFails : Bool
  getBatchFails : Nat → Bool
  insertFails : Nat → Bool
  swapImpl : DB → String → String → DB × Bool
  postProcs : List String

/-- The cycle's temp table name, `target_table + suffix`. -/
def CycleEnv.tempTable (env : CycleEnv) : String :=
  env.origTable ++ env.suffix

/-- Result of `processData` or `syncTables`: the table store, the
events performed, and `none` for success. -/
structure LoopRes where
  db : DB
  events : List Event
  result : Option SyncError

/-- `GetBatch` of the source connector: the slice of the stable row
order at the given offset (`LIMIT batchSize OFFSET offset`, resp. the
Oracle `ROW_NUMBER` window). -/
def sourceGetBatch (env : CycleEnv) (offset batchSize : Nat) :
    List Record :=
  (env.sourceRows.drop offset).take batchSize

/-- The streaming loop of `processData` (the non-preloaded branch):
paginate the source, process, drain, insert, with the insert batch size
shrunk to the drained size when the drained batch is smaller.  The
connector rejects a non-positive batch size as an error.  Fuel is an
upper bound on the iteration count; every call uses
`sourceRows.length + 1`, which suffices because each continuing
iteration advances the offset by at least one. -/
def streamLoop (env : CycleEnv) (temp : String) :
    Nat → Nat → Nat → DataProcessor → DB → List Event → LoopRes
  | 0, _, _, _, db, evs => ⟨db, evs, none⟩
  | fuel + 1, offset, bs, proc, db, evs =>
    if offset < env.sourceRows.length then
      if bs = 0 then ⟨db, evs, some .extractError⟩
      else if env.getBatchFails offset then ⟨db, evs, some .extractError⟩
      else
        let batch := sourceGetBatch env offset bs
        let proc1 := proc.Process batch
        let got := proc1.GetBatch bs
        if got.1.isEmpty then ⟨db, evs, none⟩
        else
          let bs1 := if bs > got.1.length then got.1.length else bs
          if env.insertFails offset then ⟨db, evs, some .insertError⟩
          else
            streamLoop env temp fuel (offset + bs1) bs1 got.2
              (insertRows db temp got.1 (got.2.GetTargetColumns))
              (evs ++ [.insert got.1.length])
    else ⟨db, evs, none⟩

/-- The preloaded branch of `processData`: replay the preloaded set in
slices of the configured batch size, inserting each processed slice. -/
def preloadLoop (env : CycleEnv) (temp : String) :
    Nat → Nat → DB → List Event → LoopRes
  | 0, _, db, evs => ⟨db, evs, none⟩
  | fuel + 1, offset, db, evs =>
    if offset < env.proc.sourceData.length then
      let processed := env.proc.getPreloadedBatch offset env.batchSize
      if processed.isEmpty then ⟨db, evs, none⟩
      else if env.insertFails offset then ⟨db, evs, some .insertError⟩
      else
        preloadLoop env temp fuel (offset + env.batchSize)
          (insertRows db temp processed (env.proc.GetTargetColumns))
          (evs ++ [.insert processed.length])
    else ⟨db, evs, none⟩

/-- `processData`: preloaded replay when the processor holds preloaded
data, otherwise counted pagination (`GetCount`, then the streaming
loop). -/
def processData (env : CycleEnv) (temp : String) (db : DB) : LoopRes :=
  if env.proc.dataLoaded then
    preloadLoop env temp (env.proc.sourceData.length + 1) 0 db []
  else if env.getCountFails then ⟨db, [], some .countError⟩
  else
    streamLoop env temp (env.sourceRows.length + 1) 0 env.batchSize
      env.proc db []

/-- `CreateTempTable` of both connectors: any pre-existing table of the
temp name is dropped, then an empty table of that name is created. -/
def createTempTable (db : DB) (temp : String) : DB :=
  setTable (dropTable db temp) temp []

/-- `syncTables`: one full cycle.  On a `processData` error the temp
table is dropped and the error returned; on a swap error the function
returns at once; on success the (vacated or backup-holding) temp name
is dropped — a failure of that drop is logged only — and each post
procedure runs via `ExecuteProcedure` against objects outside the
replicated tables (the Oracle implementation is literally a no-op), so
procedures contribute an event but no table change. -/
def syncTables (env : CycleEnv) (db : DB) : LoopRes :=
  let temp := env.tempTable
  let db1 := createTempTable db temp
  let r := processData env temp db1
  match r.result with
  | some e =>
      ⟨dropTable r.db temp,
       [Event.create] ++ r.events ++ [Event.dropTemp], some e⟩
  | none =>
    match env.swapImpl r.db env.origTable temp with
    | (db2, false) =>
        ⟨db2, [Event.create] ++ r.events ++ [Event.swapAttempt],
         some .swapError⟩
    | (db2, true) =>
        ⟨dropTable db2 temp,
         [Event.create] ++ r.events ++
           [Event.swapAttempt, Event.swapOk, Event.dropTemp] ++
           env.postProcs.map (fun _ => Event.procRun),
         none⟩


/-! ## Table-store lemmas -/

theorem getTable_dropTable_self (db : DB) (t : String) :
    getTable (dropTable db t) t = none :=
  lookupA_eraseA_self db t

theorem getTable_dropTable_ne (db : DB) (t u : String) (h : t ≠ u) :
    getTable (dropTable db u) t = getTable db t :=
  lookupA_eraseA_ne db u t h

theorem getTable_setTable_self (db : DB) (t : String) (rows : Table) :
    getTable (setTable db t rows) t = some rows :=
  lookupA_setA_self db t rows

theorem getTable_setTable_ne (db : DB) (t u : String) (rows : Table)
    (h : t ≠ u) : getTable (setTable db u rows) t = getTable db t :=
  lookupA_setA_ne db u t rows h

theorem getTable_createTempTable_ne (db : DB) (t temp : String)
    (h : t ≠ temp) : getTable (createTempTable db temp) t = getTable db t := by
  rw [createTempTable, getTable_setTable_ne _ _ _ _ h,
    getTable_dropTable_ne _ _ _ h]

theorem getTable_insertRows_ne (db : DB) (t u : String)
    (records : List Record) (cols : List String) (h : t ≠ u) :
    getTable (insertRows db u records cols) t = getTable db t := by
  rw [insertRows, getTable_setTable_ne _ _ _ _ h]

/-! ## Claim C10: empty InsertBatch -/

/-- C10: for both the MariaDB and the Oracle connector, `InsertBatch`
with an empty record list returns success immediately — the check
precedes `tx.Begin`, so the result holds even with a transaction fault
injected — and the database is returned unchanged. -/
theorem C10_theorem (txFault : Bool) (db : DB) (tableName : String)
    (columns : List String) :
    mariaInsertBatch txFault db tableName [] columns = .ok db ∧
    oracleInsertBatch txFault db tableName [] columns = .ok db := by
  exact ⟨rfl, rfl⟩

/-! ## Claim C2: backup retention across the swap -/

/-- The pre-swap live rows used in the swap scenarios. -/
def oldRows : Table := [[("id", Value.int 0)]]

/-- The fully populated temp rows used in the swap scenarios. -/
def newRows : Table := [[("id", Value.int 1)]]

/-- C2: false as stated for the Oracle connector.  After a successful
`SwapTables` the timestamped backup-derived name has already been
vacated by the connector's third rename (the pre-swap rows sit under
the temp name), and the cycle's post-swap cleanup
(`DropTable(tempTableName)`, step 4 of `syncTables`) then deletes the
pre-swap data entirely: no table retains it. -/
theorem C2_counterexample :
    (oracleSwapTables [("live", oldRows), ("live_temp", newRows)]
        "live" "live_temp" "20250101120000").2 = true ∧
    getTable (oracleSwapTables [("live", oldRows), ("live_temp", newRows)]
        "live" "live_temp" "20250101120000").1 "live_backup_20250101120000"
      = none ∧
    getTable (oracleSwapTables [("live", oldRows), ("live_temp", newRows)]
        "live" "live_temp" "20250101120000").1 "live_temp" = some oldRows ∧
    dropTable (oracleSwapTables [("live", oldRows), ("live_temp", newRows)]
        "live" "live_temp" "20250101120000").1 "live_temp"
      = [("live", newRows)] := by
  decide

/-- C2 (amended): after a successful MariaDB swap exactly one backup
generation of the pre-swap live rows is retained under
`original + "_backup"`; it survives the cycle's post-swap temp-name
drop, and it is dropped again only at the start of the *next swap
attempt* (even one that then fails its rename).  For the Oracle
connector, the timestamped backup name is vacated by the third rename:
the pre-swap rows end up under the temp name instead, where the
post-swap cleanup deletes them, so no backup survives the cycle. -/
theorem C2_theorem (db : DB) (orig temp ts : String) (A B : Table)
    (horig : getTable db orig = some A)
    (htemp : getTable db temp = some B)
    (hot : orig ≠ temp)
    (hob : orig ≠ orig ++ "_backup")
    (htb : temp ≠ orig ++ "_backup")
    (hobO : orig ≠ orig ++ "_backup_" ++ ts)
    (htbO : temp ≠ orig ++ "_backup_" ++ ts)
    (hnoB : getTable db (orig ++ "_backup_" ++ ts) = none) :
    ((mariaSwapTables db orig temp).2 = true ∧
      getTable (mariaSwapTables db orig temp).1 (orig ++ "_backup") = some A ∧
      getTable (mariaSwapTables db orig temp).1 orig = some B ∧
      getTable (mariaSwapTables db orig temp).1 temp = none ∧
      getTable (dropTable (mariaSwapTables db orig temp).1 temp)
        (orig ++ "_backup") = some A) ∧
    (∀ db' : DB, (mariaSwapTables db' orig temp).2 = false →
      getTable (mariaSwapTables db' orig temp).1 (orig ++ "_backup") = none) ∧
    ((oracleSwapTables db orig temp ts).2 = true ∧
      getTable (oracleSwapTables db orig temp ts).1
        (orig ++ "_backup_" ++ ts) = none ∧
      getTable (oracleSwapTables db orig temp ts).1 temp = some A ∧
      getTable (oracleSwapTables db orig temp ts).1 orig = some B ∧
      getTable (dropTable (oracleSwapTables db orig temp ts).1 temp) temp
        = none) := by
  refine ⟨?_, ?_, ?_⟩
  · -- MariaDB success path
    set bk := orig ++ "_backup" with hbk
    have h1 : getTable (dropTable (dropTable db bk) bk) orig = some A := by
      rw [getTable_dropTable_ne _ _ _ hob, getTable_dropTable_ne _ _ _ hob,
        horig]
    have h1b : getTable (dropTable (dropTable db bk) bk) bk = none :=
      getTable_dropTable_self _ _
    have e1 : renameTable (dropTable (dropTable db bk) bk) orig bk
        = some (setTable (dropTable (dropTable (dropTable db bk) bk) orig)
            bk A) := by
      rw [renameTable, h1, h1b]
    have h2 : getTable (setTable (dropTable (dropTable (dropTable db bk) bk)
        orig) bk A) temp = some B := by
      rw [getTable_setTable_ne _ _ _ _ htb,
        getTable_dropTable_ne _ _ _ hot.symm,
        getTable_dropTable_ne _ _ _ htb, getTable_dropTable_ne _ _ _ htb,
        htemp]
    have h2b : getTable (setTable (dropTable (dropTable (dropTable db bk) bk)
        orig) bk A) orig = none := by
      rw [getTable_setTable_ne _ _ _ _ hob, getTable_dropTable_self]
    have e2 : renameTable (setTable (dropTable (dropTable (dropTable db bk)
        bk) orig) bk A) temp orig
        = some (setTable (dropTable (setTable (dropTable (dropTable
            (dropTable db bk) bk) orig) bk A) temp) orig B) := by
      rw [renameTable, h2, h2b]
    have hres : mariaSwapTables db orig temp
        = (setTable (dropTable (setTable (dropTable (dropTable
            (dropTable db bk) bk) orig) bk A) temp) orig B, true) := by
      rw [mariaSwapTables]
      rw [← hbk]
      simp only [renameAll, e1, e2]
    rw [hres]
    refine ⟨rfl, ?_, ?_, ?_, ?_⟩
    · rw [getTable_setTable_ne _ _ _ _ (Ne.symm hob),
        getTable_dropTable_ne _ _ _ (Ne.symm htb), getTable_setTable_self]
    · rw [getTable_setTable_self]
    · rw [getTable_setTable_ne _ _ _ _ hot.symm, getTable_dropTable_self]
    · rw [getTable_dropTable_ne _ _ _ (Ne.symm htb),
        getTable_setTable_ne _ _ _ _ (Ne.symm hob),
        getTable_dropTable_ne _ _ _ (Ne.symm htb), getTable_setTable_self]
  · -- MariaDB drops the stale backup at the start of every swap attempt
    intro db' hfail
    rw [mariaSwapTables] at hfail ⊢
    rcases hr : renameAll (dropTable (dropTable db' (orig ++ "_backup"))
        (orig ++ "_backup"))
        [(orig, orig ++ "_backup"), (temp, orig)] with _ | db2
    · simp only [hr]
      exact getTable_dropTable_self _ _
    · simp only [hr] at hfail
      exact absurd hfail (by decide)
  · -- Oracle success path
    set bk := orig ++ "_backup_" ++ ts with hbk
    have e1 : renameTable db orig bk
        = some (setTable (dropTable db orig) bk A) := by
      rw [renameTable, horig, hnoB]
    have h2 : getTable (setTable (dropTable db orig) bk A) temp
        = some B := by
      rw [getTable_setTable_ne _ _ _ _ htbO,
        getTable_dropTable_ne _ _ _ hot.symm, htemp]
    have h2b : getTable (setTable (dropTable db orig) bk A) orig = none := by
      rw [getTable_setTable_ne _ _ _ _ hobO, getTable_dropTable_self]
    have e2 : renameTable (setTable (dropTable db orig) bk A) temp orig
        = some (setTable (dropTable (setTable (dropTable db orig) bk A)
            temp) orig B) := by
      rw [renameTable, h2, h2b]
    have h3 : getTable (setTable (dropTable (setTable (dropTable db orig)
        bk A) temp) orig B) bk = some A := by
      rw [getTable_setTable_ne _ _ _ _ (Ne.symm hobO),
        getTable_dropTable_ne _ _ _ (Ne.symm htbO), getTable_setTable_self]
    have h3b : getTable (setTable (dropTable (setTable (dropTable db orig)
        bk A) temp) orig B) temp = none := by
      rw [getTable_setTable_ne _ _ _ _ hot.symm, getTable_dropTable_self]
    have e3 : renameTable (setTable (dropTable (setTable (dropTable db orig)
        bk A) temp) orig B) bk temp
        = some (setTable (dropTable (setTable (dropTable (setTable
            (dropTable db orig) bk A) temp) orig B) bk) temp A) := by
      rw [renameTable, h3, h3b]
    have hres : oracleSwapTables db orig temp ts
        = (setTable (dropTable (setTable (dropTable (setTable
            (dropTable db orig) bk A) temp) orig B) bk) temp A, true) := by
      rw [oracleSwapTables]
      rw [← hbk]
      simp only [renameAll, e1, e2, e3]
    rw [hres]
    refine ⟨rfl, ?_, ?_, ?_, ?_⟩
    · rw [getTable_setTable_ne _ _ _ _ htbO.symm, getTable_dropTable_self]
    · rw [getTable_setTable_self]
    · rw [getTable_setTable_ne _ _ _ _ hot,
        getTable_dropTable_ne _ _ _ hobO, getTable_setTable_self]
    · rw [getTable_dropTable_self]

/-- Witness for C2: the concrete two-table store satisfies every
hypothesis, and after the MariaDB swap plus the post-swap temp drop the
backup still holds the pre-swap rows. -/
theorem C2_witness :
    getTable [("live", oldRows), ("live_temp", newRows)] "live"
      = some oldRows ∧
    getTable (dropTable (mariaSwapTables
        [("live", oldRows), ("live_temp", newRows)] "live" "live_temp").1
        "live_temp") ("live" ++ "_backup") = some oldRows :=
  ⟨by decide,
   (C2_theorem [("live", oldRows), ("live_temp", newRows)] "live"
      "live_temp" "20250101120000" oldRows newRows (by decide) (by decide)
      (by decide) (by decide) (by decide) (by decide) (by decide)
      (by decide)).1.2.2.2.2⟩


/-! ## Frame and event lemmas for the cycle loops -/

theorem streamLoop_frame (env : CycleEnv) (temp : String) :
    ∀ (fuel offset bs : Nat) (proc : DataProcessor) (db : DB)
      (evs : List Event) (t : String), t ≠ temp →
      getTable (streamLoop env temp fuel offset bs proc db evs).db t
        = getTable db t := by
  intro fuel
  induction fuel with
  | zero => intro offset bs proc db evs t ht; rfl
  | succ f ih =>
    intro offset bs proc db evs t ht
    simp only [streamLoop]
    split
    · split
      · rfl
      · split
        · rfl
        · split
          · rfl
          · split
            · rfl
            · rw [ih _ _ _ _ _ _ ht, getTable_insertRows_ne _ _ _ _ _ ht]
    · rfl

theorem preloadLoop_frame (env : CycleEnv) (temp : String) :
    ∀ (fuel offset : Nat) (db : DB) (evs : List Event) (t : String),
      t ≠ temp →
      getTable (preloadLoop env temp fuel offset db evs).db t
        = getTable db t := by
  intro fuel
  induction fuel with
  | zero => intro offset db evs t ht; rfl
  | succ f ih =>
    intro offset db evs t ht
    simp only [preloadLoop]
    split
    · split
      · rfl
      · split
        · rfl
        · rw [ih _ _ _ _ ht, getTable_insertRows_ne _ _ _ _ _ ht]
    · rfl

theorem streamLoop_events (env : CycleEnv) (temp : String) :
    ∀ (fuel offset bs : Nat) (proc : DataProcessor) (db : DB)
      (evs : List Event),
      ∀ ev ∈ (streamLoop env temp fuel offset bs proc db evs).events,
        ev ∈ evs ∨ ∃ n, ev = Event.insert n := by
  intro fuel
  induction fuel with
  | zero => intro offset bs proc db evs ev hev; exact Or.inl hev
  | succ f ih =>
    intro offset bs proc db evs ev hev
    simp only [streamLoop] at hev
    revert hev
    split
    · split
      · exact fun hev => Or.inl hev
      · split
        · exact fun hev => Or.inl hev
        · split
          · exact fun hev => Or.inl hev
          · split
            · exact fun hev => Or.inl hev
            · intro hev
              rcases ih _ _ _ _ _ ev hev with hmem | hins
              · rcases List.mem_append.mp hmem with h | h
                · exact Or.inl h
                · exact Or.inr ⟨_, List.mem_singleton.mp h⟩
              · exact Or.inr hins
    · exact fun hev => Or.inl hev

theorem preloadLoop_events (env : CycleEnv) (temp : String) :
    ∀ (fuel offset : Nat) (db : DB) (evs : List Event),
      ∀ ev ∈ (preloadLoop env temp fuel offset db evs).events,
        ev ∈ evs ∨ ∃ n, ev = Event.insert n := by
  intro fuel
  induction fuel with
  | zero => intro offset db evs ev hev; exact Or.inl hev
  | succ f ih =>
    intro offset db evs ev hev
    simp only [preloadLoop] at hev
    revert hev
    split
    · split
      · exact fun hev => Or.inl hev
      · split
        · exact fun hev => Or.inl hev
        · intro hev
          rcases ih _ _ _ ev hev with hmem | hins
          · rcases List.mem_append.mp hmem with h | h
            · exact Or.inl h
            · exact Or.inr ⟨_, List.mem_singleton.mp h⟩
          · exact Or.inr hins
    · exact fun hev => Or.inl hev

theorem processData_frame (env : CycleEnv) (temp : String) (db : DB)
    (t : String) (ht : t ≠ temp) :
    getTable (processData env temp db).db t = getTable db t := by
  rw [processData]
  split
  · exact preloadLoop_frame env temp _ _ _ _ _ ht
  · split
    · rfl
    · exact streamLoop_frame env temp _ _ _ _ _ _ _ ht

theorem processData_events (env : CycleEnv) (temp : String) (db : DB) :
    ∀ ev ∈ (processData env temp db).events, ∃ n, ev = Event.insert n := by
  intro ev hev
  rw [processData] at hev
  revert hev
  split
  · intro hev
    rcases preloadLoop_events env temp _ _ _ _ ev hev with h | h
    · simp at h
    · exact h
  · split
    · intro hev; simp at hev
    · intro hev
      rcases streamLoop_events env temp _ _ _ _ _ _ ev hev with h | h
      · simp at h
      · exact h

/-! ## Claims C3 and C6: failure containment -/

/-- Identity processor: no schemas, default (identity) transform,
nothing preloaded — the processor a plain table-to-table job without
explicit target columns gets. -/
def procIdentity : DataProcessor := NewDataProcessor (fun r => r) none none

/-- `n` distinct one-column rows. -/
def rowsOfRange (n : Nat) : List Record :=
  (List.range n).map (fun i => [("id", Value.int i)])

/-- A no-failure cycle environment over the given source rows, MariaDB
target, live table `t`, temp suffix `_temp`. -/
def baseEnv (rows : List Record) (bs : Nat) : CycleEnv :=
  { sourceRows := rows, batchSize := bs, proc := procIdentity,
    origTable := "t", suffix := "_temp", getCountFails := false,
    getBatchFails := fun _ => false, insertFails := fun _ => false,
    swapImpl := mariaSwapTables, postProcs := [] }

/-- C3: if any `GetCount`, `GetBatch` or `InsertBatch` call of a cycle
fails, the cycle reports that failure, the temp table is dropped, every
other table — the live table in particular — still holds its pre-cycle
content, and no swap is attempted. -/
theorem C3_theorem (env : CycleEnv) (db : DB) (e : SyncError)
    (hfail : (processData env env.tempTable
        (createTempTable db env.tempTable)).result = some e) :
    (syncTables env db).result = some e ∧
    getTable (syncTables env db).db env.tempTable = none ∧
    (∀ t, t ≠ env.tempTable →
      getTable (syncTables env db).db t = getTable db t) ∧
    Event.swapAttempt ∉ (syncTables env db).events := by
  have hsync : syncTables env db =
      ⟨dropTable (processData env env.tempTable
          (createTempTable db env.tempTable)).db env.tempTable,
       [Event.create] ++ (processData env env.tempTable
          (createTempTable db env.tempTable)).events ++ [Event.dropTemp],
       some e⟩ := by
    rw [syncTables]
    simp only [hfail]
  rw [hsync]
  refine ⟨rfl, getTable_dropTable_self _ _, ?_, ?_⟩
  · intro t ht
    rw [getTable_dropTable_ne _ _ _ ht,
      processData_frame env env.tempTable _ t ht,
      getTable_createTempTable_ne _ _ _ ht]
  · intro hmem
    rcases List.mem_append.mp hmem with hmem' | h
    · rcases List.mem_append.mp hmem' with h | h
      · simp at h
      · rcases processData_events env env.tempTable _ _ h with ⟨n, hn⟩
        simp at hn
    · simp at h

/-- Witness for C3: a one-row source whose single insert fails; the
cycle reports the insert failure. -/
theorem C3_witness :
    (processData { baseEnv (rowsOfRange 1) 1 with
        insertFails := fun _ => true }
      ({ baseEnv (rowsOfRange 1) 1 with
        insertFails := fun _ => true } : CycleEnv).tempTable
      (createTempTable [("t", oldRows)]
        ({ baseEnv (rowsOfRange 1) 1 with
          insertFails := fun _ => true } : CycleEnv).tempTable)).result
      = some SyncError.insertError ∧
    (syncTables { baseEnv (rowsOfRange 1) 1 with
        insertFails := fun _ => true } [("t", oldRows)]).result
      = some SyncError.insertError ∧
    getTable (syncTables { baseEnv (rowsOfRange 1) 1 with
        insertFails := fun _ => true } [("t", oldRows)]).db "t"
      = some oldRows := by
  refine ⟨by decide, ?_⟩
  have h := C3_theorem ({ baseEnv (rowsOfRange 1) 1 with
      insertFails := fun _ => true }) [("t", oldRows)]
    SyncError.insertError (by decide)
  refine ⟨h.1, ?_⟩
  rw [h.2.2.1 "t" (by decide)]
  decide

/-- C6: when the swap fails, the cycle reports a swap error, the final
table store is exactly what the failed swap left behind (`syncTables`
performs no drop after a swap failure — no `dropTemp` event occurs),
and both connectors' `SwapTables` leave the temp table in place when
they fail: Oracle's transaction rolls back wholly, and MariaDB's
atomic rename changes nothing but the already-dropped backup name. -/
theorem C6_theorem :
    (∀ (env : CycleEnv) (db db2 : DB),
      (processData env env.tempTable
          (createTempTable db env.tempTable)).result = none →
      env.swapImpl (processData env env.tempTable
          (createTempTable db env.tempTable)).db
          env.origTable env.tempTable = (db2, false) →
      (syncTables env db).result = some SyncError.swapError ∧
      (syncTables env db).db = db2 ∧
      Event.dropTemp ∉ (syncTables env db).events) ∧
    (∀ (db : DB) (o t ts : String),
      (oracleSwapTables db o t ts).2 = false →
      (oracleSwapTables db o t ts).1 = db) ∧
    (∀ (db : DB) (o t : String), t ≠ o ++ "_backup" →
      (mariaSwapTables db o t).2 = false →
      getTable (mariaSwapTables db o t).1 t = getTable db t) := by
  refine ⟨?_, ?_, ?_⟩
  · intro env db db2 hnone hswap
    have hsync : syncTables env db =
        ⟨db2, [Event.create] ++ (processData env env.tempTable
            (createTempTable db env.tempTable)).events ++
          [Event.swapAttempt], some SyncError.swapError⟩ := by
      rw [syncTables]
      simp only [hnone, hswap]
    rw [hsync]
    refine ⟨rfl, rfl, ?_⟩
    intro hmem
    rcases List.mem_append.mp hmem with hmem' | h
    · rcases List.mem_append.mp hmem' with h | h
      · simp at h
      · rcases processData_events env env.tempTable _ _ h with ⟨n, hn⟩
        simp at hn
    · simp at h
  · intro db o t ts hfail
    rw [oracleSwapTables] at hfail ⊢
    rcases hr : renameAll db [(o, o ++ "_backup_" ++ ts), (t, o),
        (o ++ "_backup_" ++ ts, t)] with _ | db2
    · simp only [hr]
    · simp only [hr] at hfail
      exact absurd hfail (by decide)
  · intro db o t htb hfail
    rw [mariaSwapTables] at hfail ⊢
    rcases hr : renameAll (dropTable (dropTable db (o ++ "_backup"))
        (o ++ "_backup")) [(o, o ++ "_backup"), (t, o)] with _ | db2
    · simp only [hr]
      rw [getTable_dropTable_ne _ _ _ htb, getTable_dropTable_ne _ _ _ htb]
    · simp only [hr] at hfail
      exact absurd hfail (by decide)

/-- Witness for C6: a live-table-free store makes the MariaDB rename
fail; the populated temp table survives the failed cycle. -/
theorem C6_witness :
    (processData (baseEnv (rowsOfRange 1) 1)
        ((baseEnv (rowsOfRange 1) 1) : CycleEnv).tempTable
        (createTempTable [] ((baseEnv (rowsOfRange 1) 1) : CycleEnv).tempTable)).result
      = none ∧
    (syncTables (baseEnv (rowsOfRange 1) 1) []).result
      = some SyncError.swapError ∧
    Event.dropTemp ∉ (syncTables (baseEnv (rowsOfRange 1) 1) []).events ∧
    getTable (syncTables (baseEnv (rowsOfRange 1) 1) []).db "t_temp"
      = some (rowsOfRange 1) := by
  have h := (C6_theorem.1 (baseEnv (rowsOfRange 1) 1) []
    [("t_temp", rowsOfRange 1)] (by decide) (by decide))
  refine ⟨by decide, h.1, h.2.2, ?_⟩
  rw [h.2.1]
  decide

/-! ## Claim C4: the 1000-row / batch-300 scenario -/

theorem procIdentity_processRecord :
    procIdentity.processRecord = fun r => r := rfl

theorem procIdentity_roundtrip (batch : List Record) (bs : Nat)
    (h : batch.length ≤ bs) :
    (procIdentity.Process batch).GetBatch bs = (batch, procIdentity) := by
  rw [DataProcessor.Process, DataProcessor.GetBatch]
  have hb : procIdentity.buffer = [] := rfl
  simp only [procIdentity_processRecord, List.map_id', hb, List.nil_append]
  have hsz : (if bs > batch.length then batch.length else bs)
      = batch.length := by
    by_cases hc : bs > batch.length
    · simp [hc]
    · simp only [if_neg hc]; omega
  rw [hsz, List.take_length, List.drop_length]
  rfl

theorem keysA_projRecord (cols : List String) (r : Record) :
    keysA (projRecord cols r) = cols := by
  induction cols with
  | nil => rfl
  | cons c cs ih => simpa [keysA, projRecord] using ih

theorem c4_insertRows (cols0 : List String) (temp : String)
    (acc : Table) (batch : List Record) (hne : batch ≠ [])
    (hshape : ∀ r ∈ batch, projRecord cols0 r = r) :
    insertRows [(temp, acc)] temp batch [] = [(temp, acc ++ batch)] := by
  rw [insertRows]
  have hhead : batch.headD [] ∈ batch := by
    cases batch with
    | nil => exact absurd rfl hne
    | cons a l => exact List.mem_cons_self a l
  have hcols : effColumns [] batch = cols0 := by
    rw [effColumns]
    simp only [List.isEmpty_nil, if_pos]
    rw [← hshape _ hhead, keysA_projRecord]
  have hmap : batch.map (projRecord (effColumns [] batch)) = batch := by
    rw [hcols]
    calc batch.map (projRecord cols0)
        = batch.map (fun r => r) := List.map_congr_left hshape
      _ = batch := List.map_id' batch
  rw [hmap]
  have hget : getTable [(temp, acc)] temp = some acc := by
    simp [getTable, lookupA]
  rw [hget]
  simp [setTable, setA, eraseA]

theorem c4_step (rows : List Record) (cols0 : List String)
    (hshape : ∀ r ∈ rows, projRecord cols0 r = r)
    (temp : String) (f offset bs : Nat) (acc : Table) (evs : List Event)
    (hbs : bs ≠ 0) (hoff : offset < rows.length) :
    streamLoop (baseEnv rows 300) temp (f + 1) offset bs procIdentity
        [(temp, acc)] evs
      = streamLoop (baseEnv rows 300) temp f
          (offset + min bs (rows.length - offset))
          (min bs (rows.length - offset)) procIdentity
          [(temp, acc ++ (rows.drop offset).take bs)]
          (evs ++ [Event.insert (min bs (rows.length - offset))]) := by
  have hsrc : (baseEnv rows 300).sourceRows = rows := rfl
  have hbatch : sourceGetBatch (baseEnv rows 300) offset bs
      = (rows.drop offset).take bs := rfl
  have hblen : ((rows.drop offset).take bs).length
      = min bs (rows.length - offset) := by
    simp [List.length_take]
  have hble : ((rows.drop offset).take bs).length ≤ bs := by
    rw [hblen]; omega
  have hbne : ((rows.drop offset).take bs).isEmpty = false := by
    have hpos : 0 < ((rows.drop offset).take bs).length := by
      rw [hblen]; omega
    cases hc : (rows.drop offset).take bs with
    | nil => rw [hc] at hpos; simp at hpos
    | cons a l => rfl
  have hround := procIdentity_roundtrip ((rows.drop offset).take bs) bs hble
  have htc : procIdentity.GetTargetColumns = [] := rfl
  have hins : insertRows [(temp, acc)] temp ((rows.drop offset).take bs)
      procIdentity.GetTargetColumns
      = [(temp, acc ++ (rows.drop offset).take bs)] := by
    rw [htc]
    refine c4_insertRows cols0 temp acc _ ?_ ?_
    · intro hc; rw [hc] at hbne; simp at hbne
    · intro r hr
      exact hshape r (List.drop_subset _ _ (List.take_subset _ _ hr))
  have hgbf : (baseEnv rows 300).getBatchFails offset = false := rfl
  have hif : (baseEnv rows 300).insertFails offset = false := rfl
  simp only [streamLoop, hsrc, hoff, if_pos, if_neg hbs, hgbf, hif,
    Bool.false_eq_true, if_false, hbatch, hround, hbne, hins, hblen]
  have hbs1 : (if bs > min bs (rows.length - offset)
      then min bs (rows.length - offset) else bs)
      = min bs (rows.length - offset) := by
    by_cases hc : bs > min bs (rows.length - offset)
    · simp [hc]
    · simp only [if_neg hc]; omega
  rw [hbs1]

theorem streamLoop_done (env : CycleEnv) (temp : String)
    (f offset bs : Nat) (proc : DataProcessor) (db : DB)
    (evs : List Event) (hoff : ¬ offset < env.sourceRows.length) :
    streamLoop env temp (f + 1) offset bs proc db evs = ⟨db, evs, none⟩ := by
  simp only [streamLoop, if_neg hoff]

/-- C4: with 1000 source rows and batch size 300, one cycle performs
exactly the inserts 300, 300, 300, 100 in that order (the insert batch
size is shrunk to the drained batch size only at the final, short
batch), succeeds, and leaves the temp table holding exactly the source
rows — none missing, none duplicated.  `cols0` is the uniform column
list of the source rows (`projRecord cols0 r = r` says row `r` is
shaped by those columns). -/
theorem C4_theorem (rows : List Record) (cols0 : List String)
    (hlen : rows.length = 1000)
    (hshape : ∀ r ∈ rows, projRecord cols0 r = r) :
    (processData (baseEnv rows 300) "t_temp" [("t_temp", [])]).result
      = none ∧
    (processData (baseEnv rows 300) "t_temp" [("t_temp", [])]).events
      = [Event.insert 300, Event.insert 300, Event.insert 300,
         Event.insert 100] ∧
    getTable (processData (baseEnv rows 300) "t_temp"
        [("t_temp", [])]).db "t_temp" = some rows := by
  have hload : (baseEnv rows 300).proc.dataLoaded = false := rfl
  have hcnt : (baseEnv rows 300).getCountFails = false := rfl
  have hpd : processData (baseEnv rows 300) "t_temp" [("t_temp", [])]
      = streamLoop (baseEnv rows 300) "t_temp" (rows.length + 1) 0 300
          procIdentity [("t_temp", [])] [] := by
    rw [processData]
    simp only [hload, hcnt, Bool.false_eq_true, if_false]
    rfl
  have hrun : processData (baseEnv rows 300) "t_temp" [("t_temp", [])]
      = ⟨[("t_temp", rows)],
         [Event.insert 300, Event.insert 300, Event.insert 300,
          Event.insert 100], none⟩ := by
    rw [hpd, hlen]
    rw [c4_step rows cols0 hshape "t_temp" 1000 0 300 [] []
      (by decide) (by omega)]
    simp only [hlen, Nat.sub_zero, Nat.zero_add, List.drop_zero,
      List.nil_append]
    norm_num [Nat.min_def]
    rw [show (1000 : Nat) = 999 + 1 from rfl]
    rw [c4_step rows cols0 hshape "t_temp" 999 300 300 (rows.take 300)
      [Event.insert 300] (by decide) (by omega)]
    simp only [hlen]
    norm_num [Nat.min_def]
    rw [show (999 : Nat) = 998 + 1 from rfl]
    rw [c4_step rows cols0 hshape "t_temp" 998 600 300
      (rows.take 300 ++ (rows.drop 300).take 300)
      [Event.insert 300, Event.insert 300] (by decide) (by omega)]
    simp only [hlen]
    norm_num [Nat.min_def]
    rw [show (998 : Nat) = 997 + 1 from rfl]
    rw [c4_step rows cols0 hshape "t_temp" 997 900 300
      (rows.take 300 ++ ((rows.drop 300).take 300
        ++ (rows.drop 600).take 300))
      [Event.insert 300, Event.insert 300, Event.insert 300]
      (by decide) (by omega)]
    simp only [hlen]
    norm_num [Nat.min_def]
    rw [show (997 : Nat) = 996 + 1 from rfl]
    rw [streamLoop_done (baseEnv rows 300) "t_temp" 996 1000 100
      procIdentity _ _ (by
        have hsr : (baseEnv rows 300).sourceRows = rows := rfl
        rw [hsr, hlen]
        omega)]
    have e4 : (rows.drop 900).take 300 = rows.drop 900 :=
      List.take_of_length_le (by rw [List.length_drop]; omega)
    have e3 : (rows.drop 600).take 300 ++ rows.drop 900
        = rows.drop 600 := by
      rw [show (900 : Nat) = 600 + 300 from rfl, ← List.drop_drop,
        List.take_append_drop]
    have e2 : (rows.drop 300).take 300 ++ rows.drop 600
        = rows.drop 300 := by
      rw [show (600 : Nat) = 300 + 300 from rfl, ← List.drop_drop,
        List.take_append_drop]
    have e1 : rows.take 300 ++ rows.drop 300 = rows :=
      List.take_append_drop 300 rows
    simp only [List.append_assoc, e4, e3, e2, e1]
  rw [hrun]
  refine ⟨rfl, rfl, ?_⟩
  simp [getTable, lookupA]

set_option maxRecDepth 8000 in
/-- Witness for C4: 1000 concrete distinct one-column rows. -/
theorem C4_witness :
    (rowsOfRange 1000).length = 1000 ∧
    (processData (baseEnv (rowsOfRange 1000) 300) "t_temp"
        [("t_temp", [])]).events
      = [Event.insert 300, Event.insert 300, Event.insert 300,
         Event.insert 100] ∧
    getTable (processData (baseEnv (rowsOfRange 1000) 300) "t_temp"
        [("t_temp", [])]).db "t_temp" = some (rowsOfRange 1000) := by
  have hlen : (rowsOfRange 1000).length = 1000 := by
    rfl
  have hshape : ∀ r ∈ rowsOfRange 1000, projRecord ["id"] r = r := by
    intro r hr
    rcases List.mem_map.mp hr with ⟨i, hi, rfl⟩
    rfl
  exact ⟨hlen, (C4_theorem (rowsOfRange 1000) ["id"] hlen hshape).2.1,
    (C4_theorem (rowsOfRange 1000) ["id"] hlen hshape).2.2⟩


/-! ## Claim C5: preloaded batches under Go map reference semantics

Go maps are reference values: the processor's preloaded `sourceData`
slice holds references to record objects, and every registered
transform function mutates its argument map in place and returns it.
The store model below makes those references explicit in order to
state what `GetPreloadedBatch` does to the preloaded set itself. -/

/-- A store of record objects; an address is an index. -/
abbrev Store : Type := List Record

/-- Content of the record object at an address (out-of-range reads
yield the empty record; the concrete scenarios stay in range). -/
def storeGet : Store → Nat → Record
  | [], _ => []
  | r :: _, 0 => r
  | _ :: rest, a + 1 => storeGet rest a

/-- In-place update of the record object at an address
(no-op out of range). -/
def storeSet : Store → Nat → Record → Store
  | [], _, _ => []
  | _ :: rest, 0, r => r :: rest
  | x :: rest, a + 1, r => x :: storeSet rest a r

theorem length_storeSet : ∀ (st : Store) (a : Nat) (r : Record),
    (storeSet st a r).length = st.length := by
  intro st
  induction st with
  | nil => intro a r; rfl
  | cons x xs ih =>
    intro a r
    cases a with
    | zero => rfl
    | succ n => simp [storeSet, ih]

theorem storeGet_storeSet_self : ∀ (st : Store) (a : Nat),
    a < st.length → ∀ r, storeGet (storeSet st a r) a = r := by
  intro st
  induction st with
  | nil => intro a h; simp at h
  | cons x xs ih =>
    intro a h r
    cases a with
    | zero => rfl
    | succ n =>
      simp only [storeSet, storeGet]
      exact ih n (by simpa using h) r

theorem storeGet_storeSet_ne : ∀ (st : Store) (a b : Nat), a ≠ b →
    ∀ r, storeGet (storeSet st b r) a = storeGet st a := by
  intro st
  induction st with
  | nil => intro a b _ r; rfl
  | cons x xs ih =>
    intro a b hab r
    cases b with
    | zero =>
      cases a with
      | zero => exact absurd rfl hab
      | succ n => rfl
    | succ m =>
      cases a with
      | zero => rfl
      | succ n =>
        simp only [storeSet, storeGet]
        exact ih n m (by omega) r

theorem storeSet_oor : ∀ (st : Store) (a : Nat), st.length ≤ a →
    ∀ r, storeSet st a r = st := by
  intro st
  induction st with
  | nil => intro a _ r; rfl
  | cons x xs ih =>
    intro a h r
    cases a with
    | zero => simp at h
    | succ n =>
      simp only [storeSet]
      rw [ih n (by simpa using h) r]

theorem storeSet_storeGet_self : ∀ (st : Store) (a : Nat),
    a < st.length → storeSet st a (storeGet st a) = st := by
  intro st
  induction st with
  | nil => intro a h; simp at h
  | cons x xs ih =>
    intro a h
    cases a with
    | zero => rfl
    | succ n =>
      simp only [storeSet, storeGet]
      rw [ih n (by simpa using h)]

/-- `processRecord` at store level.  Without a source schema the Go
code passes the stored record object itself to the transform, which
updates it in place and returns the same reference: the store changes
at that address.  With a source schema a fresh `processed` map is built
by the column loop first and the transform runs on the fresh object:
the store is only extended by the fresh record. -/
def processRecordS (p : DataProcessor) (st : Store) (a : Nat) :
    Store × Nat :=
  match p.sourceSchema with
  | none => (storeSet st a (p.transform (storeGet st a)), a)
  | some schema =>
      (st ++ [p.transform (p.mapRecord schema (storeGet st a))], st.length)

/-- `GetPreloadedBatch(offset, batchSize)` at store level: the selected
slice of preloaded references is processed record by record; the call
returns the updated store and the references of the processed batch. -/
def getPreloadedBatchS (p : DataProcessor) (addrs : List Nat)
    (dataLoaded : Bool) (st : Store) (offset batchSize : Nat) :
    Store × List Nat :=
  if !dataLoaded || addrs.length ≤ offset then (st, [])
  else
    let e := if addrs.length < offset + batchSize then addrs.length
             else offset + batchSize
    ((addrs.drop offset).take (e - offset)).foldl
      (fun acc a =>
        let r := processRecordS p acc.1 a
        (r.1, acc.2 ++ [r.2]))
      (st, [])

/-- Repeated in-place transformation along a list of addresses: the
schema-free processing pass. -/
def applyAll (t : Record → Record) : Store → List Nat → Store
  | st, [] => st
  | st, a :: rest => applyAll t (storeSet st a (t (storeGet st a))) rest

theorem foldS_none (p : DataProcessor) (hp : p.sourceSchema = none) :
    ∀ (L : List Nat) (st : Store) (acc : List Nat),
      L.foldl (fun acc a =>
          let r := processRecordS p acc.1 a
          (r.1, acc.2 ++ [r.2])) (st, acc)
        = (applyAll p.transform st L, acc ++ L) := by
  intro L
  induction L with
  | nil => intro st acc; simp [applyAll]
  | cons a rest ih =>
    intro st acc
    simp only [List.foldl_cons, processRecordS, hp] at ih ⊢
    rw [ih, applyAll]
    simp

theorem foldS_some (p : DataProcessor) (schema : TableSchema)
    (hp : p.sourceSchema = some schema) :
    ∀ (L : List Nat) (st : Store) (acc : List Nat),
      ∃ ext rs,
        L.foldl (fun acc a =>
            let r := processRecordS p acc.1 a
            (r.1, acc.2 ++ [r.2])) (st, acc)
          = (st ++ ext, acc ++ rs) := by
  intro L
  induction L with
  | nil => intro st acc; exact ⟨[], [], by simp⟩
  | cons a rest ih =>
    intro st acc
    simp only [List.foldl_cons, processRecordS, hp] at ih ⊢
    rcases ih (st ++ [p.transform (p.mapRecord schema (storeGet st a))])
      (acc ++ [st.length]) with ⟨ext, rs, hres⟩
    refine ⟨[p.transform (p.mapRecord schema (storeGet st a))] ++ ext,
      [st.length] ++ rs, ?_⟩
    rw [hres]
    simp

/-- Address `a` holds a fixed point of `t`, or lies out of range. -/
def Settled (t : Record → Record) (st : Store) (a : Nat) : Prop :=
  storeGet st a = t (storeGet st a) ∨ st.length ≤ a

theorem settled_preserved (t : Record → Record)
    (ht : ∀ x, t (t x) = t x) (st : Store) (b : Nat) (a : Nat)
    (hs : Settled t st a) :
    Settled t (storeSet st b (t (storeGet st b))) a := by
  by_cases hb : b < st.length
  · by_cases hab : a = b
    · subst hab
      left
      rw [storeGet_storeSet_self st a hb]
      exact (ht _).symm
    · rcases hs with hfix | hoor
      · left
        rw [storeGet_storeSet_ne st a b hab]
        exact hfix
      · right
        rw [length_storeSet]
        exact hoor
  · rw [storeSet_oor st b (by omega)]
    exact hs

theorem settled_new (t : Record → Record) (ht : ∀ x, t (t x) = t x)
    (st : Store) (b : Nat) :
    Settled t (storeSet st b (t (storeGet st b))) b := by
  by_cases hb : b < st.length
  · left
    rw [storeGet_storeSet_self st b hb]
    exact (ht _).symm
  · right
    rw [length_storeSet]
    omega

theorem applyAll_settles (t : Record → Record)
    (ht : ∀ x, t (t x) = t x) :
    ∀ (L : List Nat) (st : Store) (a : Nat),
      (a ∈ L ∨ Settled t st a) → Settled t (applyAll t st L) a := by
  intro L
  induction L with
  | nil =>
    intro st a h
    rcases h with h | h
    · simp at h
    · exact h
  | cons b rest ih =>
    intro st a h
    rw [applyAll]
    rcases h with h | h
    · rcases List.mem_cons.mp h with hb | hrest
      · subst hb
        exact ih _ _ (Or.inr (settled_new t ht st a))
      · exact ih _ _ (Or.inl hrest)
    · exact ih _ _ (Or.inr (settled_preserved t ht st b a h))

theorem applyAll_stable (t : Record → Record) :
    ∀ (L : List Nat) (st : Store),
      (∀ a ∈ L, Settled t st a) → applyAll t st L = st := by
  intro L
  induction L with
  | nil => intro st _; rfl
  | cons b rest ih =>
    intro st h
    rw [applyAll]
    have hb := h b (List.mem_cons_self b rest)
    have hset : storeSet st b (t (storeGet st b)) = st := by
      rcases hb with hfix | hoor
      · rw [← hfix]
        by_cases hlt : b < st.length
        · exact storeSet_storeGet_self st b hlt
        · exact storeSet_oor st b (by omega) _
      · exact storeSet_oor st b hoor _
    rw [hset]
    exact ih st (fun a ha => h a (List.mem_cons_of_mem b ha))


theorem lookupA_renameKey_old (r : Record) (oldKey newKey : String) :
    lookupA (renameKey r oldKey newKey) oldKey = none := by
  rw [renameKey]
  rcases h : lookupA r oldKey with _ | v
  · exact h
  · exact lookupA_eraseA_self _ _

theorem lookupA_renameKey_ne (r : Record) (oldKey newKey k : String)
    (h1 : k ≠ oldKey) (h2 : k ≠ newKey) :
    lookupA (renameKey r oldKey newKey) k = lookupA r k := by
  rw [renameKey]
  rcases h : lookupA r oldKey with _ | v
  · rfl
  · rw [lookupA_eraseA_ne _ _ _ h1, lookupA_setA_ne _ _ _ _ h2]

theorem renameKey_of_none (r : Record) (oldKey newKey : String)
    (h : lookupA r oldKey = none) : renameKey r oldKey newKey = r := by
  rw [renameKey, h]

/-- Every registered transform is idempotent: after one application the
renamed-away keys are gone, so a second application finds nothing to
rename. -/
theorem TransformForModelPhones_idem (r : Record) :
    TransformForModelPhones (TransformForModelPhones r)
      = TransformForModelPhones r := by
  have hV : lookupA (TransformForModelPhones r) "VENDOR_NAME" = none := by
    rw [TransformForModelPhones,
      lookupA_renameKey_ne _ _ _ _ (by decide) (by decide),
      lookupA_renameKey_ne _ _ _ _ (by decide) (by decide),
      lookupA_renameKey_old]
  have hM : lookupA (TransformForModelPhones r) "MODEL_NAME" = none := by
    rw [TransformForModelPhones,
      lookupA_renameKey_ne _ _ _ _ (by decide) (by decide),
      lookupA_renameKey_old]
  have hT : lookupA (TransformForModelPhones r) "TAC" = none := by
    rw [TransformForModelPhones, lookupA_renameKey_old]
  conv_lhs => rw [TransformForModelPhones]
  rw [renameKey_of_none _ _ _ hV, renameKey_of_none _ _ _ hM,
    renameKey_of_none _ _ _ hT]

/-- C5: false as stated.  In preloaded mode the source schema is unset
(the query branch of `NewSyncService` fetches data without resolving a
source schema), so `processRecord` hands the stored record object
itself to the transform; `TransformForModelPhones` renames keys in
place, mutating the preloaded set: after one `GetPreloadedBatch` the
stored record has changed. -/
theorem C5_counterexample :
    (getPreloadedBatchS
        (NewDataProcessor TransformForModelPhones none none) [0] true
        [[("VENDOR_NAME", Value.str "X")]] 0 1).1
      ≠ [[("VENDOR_NAME", Value.str "X")]] ∧
    (getPreloadedBatchS
        (NewDataProcessor TransformForModelPhones none none) [0] true
        [[("VENDOR_NAME", Value.str "X")]] 0 1).1
      = [[("vendorName", Value.str "X")]] := by
  decide

/-- C5 (amended): `GetPreloadedBatch` applies the per-record
mapping/transform to the selected slice and returns it.  When a source
schema is set, the column loop builds fresh records and the preloaded
set is indeed never mutated (the store is only extended).  When no
source schema is set — the configuration preloaded mode actually runs
in — the transform is applied to the stored records in place, mutating
the preloaded set; re-reading the same offset range still returns the
same result because the registered transforms are idempotent. -/
theorem C5_theorem :
    (∀ (p : DataProcessor) (schema : TableSchema) (addrs : List Nat)
        (st : Store) (offset size : Nat),
      p.sourceSchema = some schema →
      ∃ ext, (getPreloadedBatchS p addrs true st offset size).1
        = st ++ ext) ∧
    (∀ (p : DataProcessor) (addrs : List Nat) (st : Store)
        (offset size : Nat),
      p.sourceSchema = none →
      (∀ x, p.transform (p.transform x) = p.transform x) →
      (getPreloadedBatchS p addrs true
          (getPreloadedBatchS p addrs true st offset size).1
          offset size).1
        = (getPreloadedBatchS p addrs true st offset size).1 ∧
      (getPreloadedBatchS p addrs true
          (getPreloadedBatchS p addrs true st offset size).1
          offset size).2
        = (getPreloadedBatchS p addrs true st offset size).2 ∧
      ((getPreloadedBatchS p addrs true
          (getPreloadedBatchS p addrs true st offset size).1
          offset size).2).map
          (storeGet (getPreloadedBatchS p addrs true
            (getPreloadedBatchS p addrs true st offset size).1
            offset size).1)
        = ((getPreloadedBatchS p addrs true st offset size).2).map
            (storeGet (getPreloadedBatchS p addrs true st offset
              size).1)) := by
  constructor
  · intro p schema addrs st offset size hp
    rw [getPreloadedBatchS]
    by_cases hg : !true || addrs.length ≤ offset
    · rw [if_pos hg]
      exact ⟨[], by simp⟩
    · rw [if_neg hg]
      rcases foldS_some p schema hp
        ((addrs.drop offset).take
          ((if addrs.length < offset + size then addrs.length
            else offset + size) - offset)) st [] with ⟨ext, rs, hres⟩
      exact ⟨ext, by rw [hres]⟩
  · intro p addrs st offset size hp ht
    by_cases hg : !true || addrs.length ≤ offset
    · rw [getPreloadedBatchS, if_pos hg, getPreloadedBatchS, if_pos hg]
      exact ⟨rfl, rfl, rfl⟩
    · have hc1 : getPreloadedBatchS p addrs true st offset size
          = (applyAll p.transform st
              ((addrs.drop offset).take
                ((if addrs.length < offset + size then addrs.length
                  else offset + size) - offset)),
             (addrs.drop offset).take
                ((if addrs.length < offset + size then addrs.length
                  else offset + size) - offset)) := by
        rw [getPreloadedBatchS, if_neg hg, foldS_none p hp]
        simp
      have hc2 : getPreloadedBatchS p addrs true
          (applyAll p.transform st
            ((addrs.drop offset).take
              ((if addrs.length < offset + size then addrs.length
                else offset + size) - offset))) offset size
          = (applyAll p.transform
              (applyAll p.transform st
                ((addrs.drop offset).take
                  ((if addrs.length < offset + size then addrs.length
                    else offset + size) - offset)))
              ((addrs.drop offset).take
                ((if addrs.length < offset + size then addrs.length
                  else offset + size) - offset)),
             (addrs.drop offset).take
                ((if addrs.length < offset + size then addrs.length
                  else offset + size) - offset)) := by
        rw [getPreloadedBatchS, if_neg hg, foldS_none p hp]
        simp
      have hstable : applyAll p.transform
          (applyAll p.transform st
            ((addrs.drop offset).take
              ((if addrs.length < offset + size then addrs.length
                else offset + size) - offset)))
          ((addrs.drop offset).take
            ((if addrs.length < offset + size then addrs.length
              else offset + size) - offset))
          = applyAll p.transform st
              ((addrs.drop offset).take
                ((if addrs.length < offset + size then addrs.length
                  else offset + size) - offset)) := by
        apply applyAll_stable
        intro a ha
        exact applyAll_settles p.transform ht _ st a (Or.inl ha)
      rw [hc1, hc2, hstable]
      exact ⟨rfl, rfl, rfl⟩

/-- Witness for C5: the concrete one-record store with the registered
phones transform; re-reading range `[0, 1)` returns the same batch. -/
theorem C5_witness :
    (NewDataProcessor TransformForModelPhones none none).sourceSchema
      = none ∧
    ((getPreloadedBatchS (NewDataProcessor TransformForModelPhones
          none none) [0] true
        (getPreloadedBatchS (NewDataProcessor TransformForModelPhones
          none none) [0] true [[("VENDOR_NAME", Value.str "X")]] 0 1).1
        0 1).2).map
        (storeGet (getPreloadedBatchS (NewDataProcessor
            TransformForModelPhones none none) [0] true
          (getPreloadedBatchS (NewDataProcessor TransformForModelPhones
            none none) [0] true [[("VENDOR_NAME", Value.str "X")]] 0
            1).1 0 1).1)
      = ((getPreloadedBatchS (NewDataProcessor TransformForModelPhones
          none none) [0] true [[("VENDOR_NAME", Value.str "X")]] 0
          1).2).map
          (storeGet (getPreloadedBatchS (NewDataProcessor
            TransformForModelPhones none none) [0] true
            [[("VENDOR_NAME", Value.str "X")]] 0 1).1) :=
  ⟨rfl,
   (C5_theorem.2 (NewDataProcessor TransformForModelPhones none none)
      [0] [[("VENDOR_NAME", Value.str "X")]] 0 1 rfl
      (fun x => TransformForModelPhones_idem x)).2.2⟩


/-! ## Claim C9: bootstrap isolation -/

/-- Modelled from the spec: the structured-logging backend (the
`logger` package imported by `main` is not under src/) provides
`Fatalf`; per the spec's design notes the original startup behavior
"terminates the entire process on any single configured database's
connection failure", so Fatal-level logging is modelled as ending the
bootstrap with no job started. -/
inductive BootRes where
  | fatal : BootRes
  | started (jobs : List String) : BootRes
  deriving DecidableEq, Repr

/-- The connection loops of `main`: each configured database is
connected and pinged in order; the first failure is fatal
(`l.Fatalf`). -/
def connectAll (names : List String)
    (connectOK pingOK : String → Bool) : Option (List String) :=
  match names with
  | [] => some []
  | n :: rest =>
    if connectOK n then
      if pingOK n then
        (connectAll rest connectOK pingOK).map (fun cs => n :: cs)
      else none
    else none

/-- The per-table goroutine loop of `main`: a goroutine whose
`NewSyncService` fails logs the error and returns, so exactly the jobs
whose service creation succeeds are started. -/
def startJobs (jobs : List String) (serviceOK : String → Bool) :
    List String :=
  jobs.filter serviceOK

/-- `main`'s bootstrap: all Oracle connections, then all MariaDB
connections, then the job goroutines. -/
def mainBootstrap (oracleNames mariaNames : List String)
    (connectOK pingOK : String → Bool) (jobs : List String)
    (serviceOK : String → Bool) : BootRes :=
  match connectAll oracleNames connectOK pingOK with
  | none => .fatal
  | some _ =>
    match connectAll mariaNames connectOK pingOK with
    | none => .fatal
    | some _ => .started (startJobs jobs serviceOK)

theorem connectAll_ok (connectOK pingOK : String → Bool) :
    ∀ (names : List String),
      (∀ n ∈ names, connectOK n = true ∧ pingOK n = true) →
      connectAll names connectOK pingOK = some names := by
  intro names
  induction names with
  | nil => intro _; rfl
  | cons n rest ih =>
    intro h
    have hn := h n (List.mem_cons_self n rest)
    rw [connectAll, if_pos hn.1, if_pos hn.2,
      ih (fun m hm => h m (List.mem_cons_of_mem n hm))]
    rfl

theorem connectAll_fails (connectOK pingOK : String → Bool) :
    ∀ (names : List String),
      (∃ n ∈ names, ¬(connectOK n = true ∧ pingOK n = true)) →
      connectAll names connectOK pingOK = none := by
  intro names
  induction names with
  | nil => intro h; simp at h
  | cons n rest ih =>
    intro h
    rw [connectAll]
    by_cases hc : connectOK n = true
    · rw [if_pos hc]
      by_cases hp : pingOK n = true
      · rw [if_pos hp]
        rcases h with ⟨m, hm, hfail⟩
        rcases List.mem_cons.mp hm with heq | hrest
        · exact absurd ⟨heq ▸ hc, heq ▸ hp⟩ (heq ▸ hfail)
        · rw [ih ⟨m, hrest, hfail⟩]
          rfl
      · rw [if_neg hp]
    · rw [if_neg hc]

/-- C9: false as stated.  With two configured Oracle databases where
only the first fails to connect, the whole bootstrap is fatal: the job
whose connectors are healthy is never started either, instead of
proceeding independently. -/
theorem C9_counterexample :
    mainBootstrap ["dbA", "dbB"] []
      (fun n => n ≠ "dbA") (fun _ => true)
      ["jobOnB"] (fun _ => true) = BootRes.fatal ∧
    startJobs ["jobOnB"] (fun _ => true) = ["jobOnB"] := by
  decide

/-- C9 (amended): a connect or ping failure of any configured database
at bootstrap terminates the whole process — no configured job, related
or unrelated, is started.  Per-job isolation holds one level later:
when every connection succeeds, exactly the jobs whose `NewSyncService`
succeeds start, so one job's service-creation failure does not abort
the others. -/
theorem C9_theorem (oracleNames mariaNames : List String)
    (connectOK pingOK : String → Bool) (jobs : List String)
    (serviceOK : String → Bool) :
    ((∃ n ∈ oracleNames ++ mariaNames,
        ¬(connectOK n = true ∧ pingOK n = true)) →
      mainBootstrap oracleNames mariaNames connectOK pingOK jobs
        serviceOK = BootRes.fatal) ∧
    ((∀ n ∈ oracleNames ++ mariaNames,
        connectOK n = true ∧ pingOK n = true) →
      mainBootstrap oracleNames mariaNames connectOK pingOK jobs
        serviceOK = BootRes.started (startJobs jobs serviceOK) ∧
      ∀ j, j ∈ startJobs jobs serviceOK ↔
        j ∈ jobs ∧ serviceOK j = true) := by
  constructor
  · intro ⟨n, hn, hfail⟩
    rw [mainBootstrap]
    rcases List.mem_append.mp hn with ho | hm
    · rw [connectAll_fails connectOK pingOK oracleNames ⟨n, ho, hfail⟩]
    · rcases hc : connectAll oracleNames connectOK pingOK with _ | cs
      · rfl
      · rw [connectAll_fails connectOK pingOK mariaNames ⟨n, hm, hfail⟩]
  · intro hok
    constructor
    · rw [mainBootstrap,
        connectAll_ok connectOK pingOK oracleNames
          (fun m hm => hok m (List.mem_append.mpr (Or.inl hm))),
        connectAll_ok connectOK pingOK mariaNames
          (fun m hm => hok m (List.mem_append.mpr (Or.inr hm)))]
    · intro j
      rw [startJobs]
      exact List.mem_filter

/-- Witness for C9: a concrete two-database configuration with one
failing connection is fatal; with all connections healthy, one failing
service creation skips only that job. -/
theorem C9_witness :
    mainBootstrap ["dbA", "dbB"] [] (fun n => n ≠ "dbA")
      (fun _ => true) ["jobOnB"] (fun _ => true) = BootRes.fatal ∧
    mainBootstrap ["dbA", "dbB"] [] (fun _ => true) (fun _ => true)
      ["job1", "job2"] (fun j => j ≠ "job1")
      = BootRes.started
          (startJobs ["job1", "job2"] (fun j => j ≠ "job1")) :=
  by
  have h1 := C9_theorem ["dbA", "dbB"] [] (fun n => n ≠ "dbA")
    (fun _ => true) ["jobOnB"] (fun _ => true)
  have h2 := C9_theorem ["dbA", "dbB"] [] (fun _ => true)
    (fun _ => true) ["job1", "job2"] (fun j => j ≠ "job1")
  exact ⟨h1.1 (by decide), (h2.2 (by decide)).1⟩


end DbSync
